import Mathlib

/-!
# Checkpoint-Bench: workload partitioning, session lifecycle and bandwidth report

A shallow embedding of `src/main.cpp`.  The program is one function, `main`; the
embedding follows it top to bottom:

* `unsigned long` values are natural numbers below `2^64`; every `+`, `-`, `*` of the
  source on such values is `uadd`, `usub`, `umul` (reduction modulo `2^64`);
* `mpi.rank()` and `mpi.size()` are `int` values; they are non-negative, so they are
  natural numbers here and their conversion to `unsigned long` keeps the value;
* the build switches `USE_MPI`, `NUMBER_OF_ALIGNED_DOFS` and `sizeof(real)` are fields
  of `Build`;
* `double` values (elapsed times, bandwidths) are rational numbers: the report is
  modelled in exact arithmetic, without rounding;
* the calls on the checkpoint manager, the MPI library, the stopwatch and the logger
  are recorded, in program order, as a list of `Event`s.
-/

namespace CheckpointBench

/-! ## Unsigned 64-bit arithmetic -/

/-- Addition of two `unsigned long` values. -/
def uadd (a b : Nat) : Nat := (a + b) % 2 ^ 64

/-- Subtraction of two `unsigned long` values (wraps below zero). -/
def usub (a b : Nat) : Nat := (a + (2 ^ 64 - b % 2 ^ 64)) % 2 ^ 64

/-- Multiplication of two `unsigned long` values. -/
def umul (a b : Nat) : Nat := (a * b) % 2 ^ 64

/-- Division of two `unsigned long` values. -/
def udiv (a b : Nat) : Nat := a / b

/-! ## Sizing in total mode (`main.cpp`, lines 112-115) -/

/-- Line 113: `elements = (total + mpi.size() - 1) / mpi.size();` -/
def baseShare (size total : Nat) : Nat :=
  udiv (usub (uadd total size) 1) size

/-- Line 115: `elements = total - (elements * (mpi.size()-1));` -/
def lastShare (size total : Nat) : Nat :=
  usub total (umul (baseShare size total) (size - 1))

/-- Lines 113-115: the value of `elements` on process `rank` of `size` processes. -/
def totalModeShare (rank size total : Nat) : Nat :=
  if rank = size - 1 then lastShare size total else baseShare size total

/-- The shares of all processes `0, ..., size-1`, in rank order. -/
def totalModeShares (size total : Nat) : List Nat :=
  (List.range size).map (fun rank => totalModeShare rank size total)

/-! ## Build configuration, command line and environment -/

/-- The compile-time switches of `main.cpp`. -/
structure Build where
  /-- Whether `USE_MPI` is defined. -/
  useMpi : Bool
  /-- The constant `NUMBER_OF_ALIGNED_DOFS`. -/
  alignedDofs : Nat
  /-- The value of `sizeof(real)`. -/
  sizeofReal : Nat

/-- The three results of `args.parse` (lines 72-81). -/
inductive ParseResult
  | success
  | help
  | error
  deriving DecidableEq, Repr

/-- The command line as read through `utils::Args`. -/
structure Args where
  /-- Result of `args.parse(argc, argv, ...)`. -/
  parse : ParseResult
  /-- `args.getArgument<unsigned int>("backend")`: an index into `backends`. -/
  backend : Fin 5
  /-- `args.getArgument<const char*>("file")`. -/
  file : String
  /-- `args.getArgument("elements", 0ul)`. -/
  elements : Nat
  /-- `args.getArgument("total", 0ul)`. -/
  total : Nat
  /-- `args.getArgument("iterations", 10u)`. -/
  iterations : Nat

/-- What the process sees of its surroundings: its place among the MPI processes and
the elapsed time `watch.stop()` returns in each iteration. -/
structure Env where
  /-- `mpi.rank()`. -/
  rank : Nat
  /-- `mpi.size()`. -/
  size : Nat
  /-- The value returned by `watch.stop()` in iteration `i`. -/
  watch : Nat → ℚ

/-- Line 65: `const char* backends[] = {"posix", "hdf5", "mpio", "mpio-async", "sionlib"}`. -/
def backends : Fin 5 → String
  | 0 => "posix"
  | 1 => "hdf5"
  | 2 => "mpio"
  | 3 => "mpio-async"
  | 4 => "sionlib"

/-- The enumeration `seissol::checkpoint::Backend` as far as `main` uses it
(`POSIX`, `HDF5`, `MPIO`, `MPIO_ASYNC`, `SIONLIB`). -/
inductive Backend
  | posix
  | hdf5
  | mpio
  | mpioAsync
  | sionlib
  deriving DecidableEq, Repr

/-- Lines 87-98: the chain of string comparisons; `none` is the final `else`. -/
def selectBackend (backend : String) : Option Backend :=
  if backend = "posix" then some Backend.posix
  else if backend = "hdf5" then some Backend.hdf5
  else if backend = "mpio" then some Backend.mpio
  else if backend = "mpio-async" then some Backend.mpioAsync
  else if backend = "sionlib" then some Backend.sionlib
  else none

/-- The two messages `main` hands to `logError()`. -/
inductive ErrorMessage
  | unknownBackend
  | sizesRequired
  deriving DecidableEq, Repr

/-- The calls `main` makes on its collaborators, in program order.  The Score-P region
macros are instrumentation only and are left out. -/
inductive Event
  /-- Line 61: `mpi.init(argc, argv)`. -/
  | mpiInit
  /-- Lines 88-96: `manager.setBackend(...)`. -/
  | setBackend (backend : Backend)
  /-- Line 100: `manager.setFilename(...)`. -/
  | setFilename (file : String)
  /-- Line 107: `logWarning(mpi.rank())`, total ignored. -/
  | logWarning
  /-- Line 110: `MPI_Reduce(&elements, &total, ...)` with this send value. -/
  | mpiReduce (send : Nat)
  /-- Lines 98 and 117: `logError()`. -/
  | logError (message : ErrorMessage)
  /-- Line 125: `new real[elements]`. -/
  | alloc (elements : Nat)
  /-- Line 133: `manager.init(dofs, elements, ...)`. -/
  | init (elements : Nat)
  /-- Line 147: `logInfo(mpi.rank()) << "Iteration" << i`. -/
  | logIteration (i : Nat)
  /-- Lines 152-154: the fill loop of iteration `i`. -/
  | fill (i : Nat)
  /-- Lines 158 and 166: `MPI_Barrier(MPI_COMM_WORLD)`. -/
  | barrier
  /-- Line 163: `watch.start()`. -/
  | watchStart
  /-- Line 164: `manager.write(i, 0, 0)`. -/
  | write (iteration waveFieldTimestep faultTimestep : Nat)
  /-- Line 168: `watch.stop()`. -/
  | watchStop
  /-- Line 173: the log line with the elapsed time and the bandwidth. -/
  | logTime (t bandwidth : ℚ)
  /-- Lines 179-180: the log line with the average time and bandwidth. -/
  | logAverage (time bandwidth : ℚ)
  /-- Line 185: `manager.close()`. -/
  | close
  /-- Lines 76, 79, 189: `mpi.finalize()`. -/
  | mpiFinalize
  deriving DecidableEq

/-- How `main` ends: it returns an exit code, or `logError()` ends the process. -/
inductive Outcome
  | exit (code : Nat)
  | fatal (message : ErrorMessage)
  deriving DecidableEq, Repr

/-! ## Sizing (lines 102-122) -/

/-- The sum `MPI_Reduce(..., MPI_UNSIGNED_LONG, MPI_SUM, 0, ...)` leaves on the root:
the contributions of all processes added as `unsigned long`. -/
def mpiReduceSum (contributions : List Nat) : Nat :=
  contributions.foldl uadd 0

/-- Lines 105-118.  Returns the calls made and the values of `elements` and `total` at
line 119, or `none` when the final `else` (line 117, `logError()`) is reached.  All
processes are started with the same command line, so each of the `size` processes
contributes the same `elements` to the reduction; its result is stored on rank 0 only. -/
def resolveSizes (b : Build) (rank size elements total : Nat) :
    List Event × Option (Nat × Nat) :=
  if 0 < elements then
    let warning := if 0 < total then [Event.logWarning] else []
    if b.useMpi then
      (warning ++ [Event.mpiReduce elements],
        some (elements,
          if rank = 0 then mpiReduceSum (List.replicate size elements) else total))
    else
      (warning, some (elements, total))
  else if 0 < total then
    ([], some (totalModeShare rank size total, total))
  else
    ([], none)

/-- Line 121: `elements *= NUMBER_OF_ALIGNED_DOFS`. -/
def alignedElements (b : Build) (elements : Nat) : Nat := umul elements b.alignedDofs

/-- Line 122: `total *= NUMBER_OF_ALIGNED_DOFS`. -/
def alignedTotal (b : Build) (total : Nat) : Nat := umul total b.alignedDofs

/-! ## The fill loop (lines 152-154) -/

/-- Line 153: the right-hand side `i * elements + j`, an `unsigned long`; the buffer of
the model holds this integer, before its conversion to `real`. -/
def fillValue (i elements j : Nat) : Nat := uadd (umul i elements) j

/-- Lines 152-154: `for (j = 0; j < elements; j++) dofs[j] = i * elements + j;`. -/
def fillDofs (i elements : Nat) (dofs : List Nat) : List Nat :=
  (List.range elements).foldl (fun d j => d.set j (fillValue i elements j)) dofs

/-! ## The report (lines 173, 179-180) -/

/-- Line 173: `(total*sizeof(real)) / t / (1024 * 1024)`. -/
def instBandwidth (b : Build) (total : Nat) (t : ℚ) : ℚ :=
  ((umul total b.sizeofReal : Nat) : ℚ) / t / (1024 * 1024)

/-- Line 179: `totalTime/iterations`. -/
def averageTime (totalTime : ℚ) (iterations : Nat) : ℚ :=
  totalTime / (iterations : ℚ)

/-- Line 180: `(total*sizeof(real)*iterations) / totalTime / (1024 * 1024)`. -/
def averageBandwidth (b : Build) (total iterations : Nat) (totalTime : ℚ) : ℚ :=
  ((umul (umul total b.sizeofReal) iterations : Nat) : ℚ) / totalTime / (1024 * 1024)

/-! ## The iteration loop (lines 144-174) and `main` -/

/-- The variables the loop changes, and the calls made so far. -/
structure LoopState where
  /-- The buffer `dofs`. -/
  dofs : List Nat
  /-- The accumulator `totalTime`. -/
  totalTime : ℚ
  /-- The calls made so far. -/
  trace : List Event

/-- Lines 158 and 166: the barrier is compiled in only with `USE_MPI`. -/
def barrierCall (b : Build) : List Event :=
  if b.useMpi then [Event.barrier] else []

/-- The calls of one pass through the loop body (lines 147-173). -/
def iterationCalls (b : Build) (watch : Nat → ℚ) (total i : Nat) : List Event :=
  [Event.logIteration i, Event.fill i] ++ barrierCall b
    ++ [Event.watchStart, Event.write i 0 0] ++ barrierCall b
    ++ [Event.watchStop, Event.logTime (watch i) (instBandwidth b total (watch i))]

/-- One pass through the loop body (lines 147-173), for loop index `i`. -/
def iteration (b : Build) (watch : Nat → ℚ) (elements total : Nat)
    (s : LoopState) (i : Nat) : LoopState :=
  { dofs := fillDofs i elements s.dofs
    totalTime := s.totalTime + watch i
    trace := s.trace ++ iterationCalls b watch total i }

/-- Lines 144-174: `for (unsigned int i = 0; i < iterations; i++) ...`. -/
def iterate (b : Build) (watch : Nat → ℚ) (elements total iterations : Nat)
    (s : LoopState) : LoopState :=
  (List.range iterations).foldl (iteration b watch elements total) s

/-- What a run of `main` leaves behind. -/
structure Run where
  /-- The calls made, in program order. -/
  trace : List Event
  /-- How the run ended. -/
  outcome : Outcome

/-- Modelled from the spec: `logError()` is declared in `utils/logger.h`, which is not
among the sources.  The spec says of configuration errors that they are "fatal at
detection point; there is no local recovery or retry": the call is recorded and the run
ends there. -/
def logError (calls : List Event) (message : ErrorMessage) : Run :=
  ⟨calls ++ [Event.logError message], Outcome.fatal message⟩

/-- The function `main` (lines 55-192).  The buffer `new real[elements]` starts with
unspecified contents, here zeros; the allocation is taken to succeed. -/
def main (b : Build) (env : Env) (args : Args) : Run :=
  match args.parse with
  | ParseResult.help => ⟨[Event.mpiInit, Event.mpiFinalize], Outcome.exit 0⟩
  | ParseResult.error => ⟨[Event.mpiInit, Event.mpiFinalize], Outcome.exit 1⟩
  | ParseResult.success =>
    match selectBackend (backends args.backend) with
    | none => logError [Event.mpiInit] ErrorMessage.unknownBackend
    | some backend =>
      let configured := [Event.mpiInit, Event.setBackend backend, Event.setFilename args.file]
      match resolveSizes b env.rank env.size args.elements args.total with
      | (calls, none) => logError (configured ++ calls) ErrorMessage.sizesRequired
      | (calls, some (elements, total)) =>
        let elements := alignedElements b elements
        let total := alignedTotal b total
        let start : LoopState :=
          { dofs := List.replicate elements 0
            totalTime := 0
            trace := configured ++ calls ++ [Event.alloc elements, Event.init elements] }
        let s := iterate b env.watch elements total args.iterations start
        ⟨s.trace ++
            [Event.logAverage (averageTime s.totalTime args.iterations)
                (averageBandwidth b total args.iterations s.totalTime),
              Event.close, Event.mpiFinalize],
          Outcome.exit 0⟩

/-! ## Vocabulary of the theorems -/

/-- The sum of the elapsed times of iterations `0, ..., iterations-1`. -/
def elapsedSum (watch : Nat → ℚ) (iterations : Nat) : ℚ :=
  ((List.range iterations).map watch).sum

/-- The calls on the checkpoint manager. -/
def Event.isSessionCall : Event → Bool
  | Event.setBackend _ => true
  | Event.setFilename _ => true
  | Event.init _ => true
  | Event.write _ _ _ => true
  | Event.close => true
  | _ => false

/-- The calls of the timed section of an iteration: barriers, stopwatch and write. -/
def Event.isTimedCall : Event → Bool
  | Event.barrier => true
  | Event.watchStart => true
  | Event.write _ _ _ => true
  | Event.watchStop => true
  | _ => false

/-- The calls that come after the sizing step: allocation, session
initialisation, writes and the two bandwidth reports. -/
def Event.isAfterSizing : Event → Bool
  | Event.alloc _ => true
  | Event.init _ => true
  | Event.write _ _ _ => true
  | Event.logTime _ _ => true
  | Event.logAverage _ _ => true
  | _ => false

/-- The timed section of iteration `i` (lines 157-168). -/
def timedCalls (b : Build) (i : Nat) : List Event :=
  barrierCall b ++ [Event.watchStart, Event.write i 0 0] ++ barrierCall b ++ [Event.watchStop]

/-! ## Theorems: unsigned arithmetic of the total mode -/

theorem usub_uadd_one (t n : Nat) (hn : 1 ≤ n) (h : t + n - 1 < 2 ^ 64) :
    usub (uadd t n) 1 = t + n - 1 := by
  unfold usub uadd
  omega

/-- Without overflow of `total + size - 1`, line 113 computes the ceiling of
`total / size`. -/
theorem baseShare_eq_ceil (n t : Nat) (hn : 1 ≤ n) (h : t + n - 1 < 2 ^ 64) :
    baseShare n t = (t + n - 1) / n := by
  unfold baseShare udiv
  rw [usub_uadd_one t n hn h]

theorem ceil_mul_pred_le (n t : Nat) (hn : 1 ≤ n) (h : (n - 1) ^ 2 ≤ t) :
    (t + n - 1) / n * (n - 1) ≤ t := by
  obtain ⟨m, rfl⟩ : ∃ m, n = m + 1 := ⟨n - 1, by omega⟩
  have e : t + (m + 1) - 1 = t + m := by omega
  simp only [Nat.add_sub_cancel, e] at *
  have hdiv : (t + m) / (m + 1) * (m + 1) ≤ t + m := Nat.div_mul_le_self _ _
  generalize (t + m) / (m + 1) = q at hdiv
  rcases Nat.lt_or_ge q m with hlt | hge
  · have : q * m ≤ m * m := Nat.mul_le_mul_right m (by omega)
    nlinarith
  · nlinarith

theorem le_ceil_mul (n t : Nat) (hn : 1 ≤ n) : t ≤ (t + n - 1) / n * n := by
  have h := @Nat.lt_div_mul_add (t + n - 1) n (by omega)
  omega

/-- When the product `base * (size-1)` does not exceed `total`, line 115 computes the
exact difference. -/
theorem lastShare_eq_sub (n t : Nat) (hn : 1 ≤ n) (h : t + n - 1 < 2 ^ 64)
    (hle : (t + n - 1) / n * (n - 1) ≤ t) :
    lastShare n t = t - (t + n - 1) / n * (n - 1) := by
  unfold lastShare
  rw [baseShare_eq_ceil n t hn h]
  unfold usub umul
  generalize (t + n - 1) / n * (n - 1) = p at hle
  omega

theorem sum_map_range_last (n base last : Nat) (hn : 1 ≤ n) :
    ((List.range n).map (fun rank => if rank = n - 1 then last else base)).sum
      = base * (n - 1) + last := by
  obtain ⟨m, rfl⟩ : ∃ m, n = m + 1 := ⟨n - 1, by omega⟩
  rw [List.range_succ, List.map_append, List.sum_append]
  have hmap : (List.range m).map (fun rank => if rank = m + 1 - 1 then last else base)
      = (List.range m).map (fun _ => base) := by
    apply List.map_congr_left
    intro r hr
    have : r < m := List.mem_range.mp hr
    have hne : r ≠ m := by omega
    simp [hne]
  rw [hmap]
  simp [Nat.mul_comm]

/-- Where the product of line 115 does not exceed `total`, the subtraction does not
wrap. -/
theorem lastShare_eq_of_le (n t : Nat) (ht : t < 2 ^ 64)
    (hle : baseShare n t * (n - 1) ≤ t) :
    lastShare n t = t - baseShare n t * (n - 1) := by
  unfold lastShare usub umul
  generalize baseShare n t * (n - 1) = p at hle
  omega

theorem totalModeShares_sum_of_le (n t : Nat) (hn : 1 ≤ n) (ht : t < 2 ^ 64)
    (hle : baseShare n t * (n - 1) ≤ t) :
    (totalModeShares n t).sum = t := by
  unfold totalModeShares totalModeShare
  rw [sum_map_range_last n _ _ hn, lastShare_eq_of_le n t ht hle]
  omega

/-- When `total + size - 1` overflows, line 113 yields a value whose product with
`size - 1` stays below `total`. -/
theorem baseShare_mul_pred_le_of_overflow (n t : Nat) (hn : 1 ≤ n) (hnt : n ≤ t)
    (ht : t < 2 ^ 64) (hov : 2 ^ 64 ≤ t + n - 1) :
    baseShare n t * (n - 1) ≤ t := by
  have hx : usub (uadd t n) 1 = t + n - 1 - 2 ^ 64 := by
    unfold usub uadd
    omega
  have h1 : baseShare n t * n ≤ t + n - 1 - 2 ^ 64 := by
    unfold baseShare udiv
    rw [hx]
    exact Nat.div_mul_le_self _ _
  have h2 : baseShare n t * (n - 1) ≤ baseShare n t * n :=
    Nat.mul_le_mul_left _ (Nat.sub_le n 1)
  omega

/-- Without overflow, the value of line 113 is the ceiling of `total / size`: the least
`b` with `total ≤ b * size`. -/
theorem baseShare_is_ceil (n t : Nat) (hn : 1 ≤ n) (h : t + n - 1 < 2 ^ 64) :
    t ≤ baseShare n t * n ∧ baseShare n t * n < t + n := by
  rw [baseShare_eq_ceil n t hn h]
  refine ⟨le_ceil_mul n t hn, ?_⟩
  have := Nat.div_mul_le_self (t + n - 1) n
  omega

theorem lastShare_bounds (n t : Nat) (hn : 1 ≤ n) (h : t + n - 1 < 2 ^ 64)
    (hle : (t + n - 1) / n * (n - 1) ≤ t) :
    lastShare n t ≤ baseShare n t ∧ baseShare n t ≤ lastShare n t + (n - 1) := by
  rw [lastShare_eq_sub n t hn h hle, baseShare_eq_ceil n t hn h]
  have h1 := le_ceil_mul n t hn
  have h2 := Nat.div_mul_le_self (t + n - 1) n
  obtain ⟨m, rfl⟩ : ∃ m, n = m + 1 := ⟨n - 1, by omega⟩
  simp only [Nat.add_sub_cancel] at *
  generalize (t + (m + 1) - 1) / (m + 1) = q at *
  rw [Nat.mul_add, Nat.mul_one] at h1 h2
  omega

/-! ## Theorems: the shares of the total mode (C1, C2, C10) -/

/-- C1, as stated, fails: with `total = 5` on `size = 4` processes, where
`total ≥ size`, lines 113-115 give the shares 2, 2, 2 and `2^64 - 1` (the last share
would be `5 - 6`, and the subtraction of line 115 wraps); added as natural numbers the
shares give `2^64 + 5` and not 5. -/
theorem shares_sum_wraps_at_total_5_size_4 :
    1 ≤ 4 ∧ 4 ≤ 5 ∧ totalModeShares 4 5 = [2, 2, 2, 2 ^ 64 - 1]
      ∧ (totalModeShares 4 5).sum = 2 ^ 64 + 5 ∧ (totalModeShares 4 5).sum ≠ 5 := by
  decide

/-- C1 (amended): for `size ≥ 1` processes and `size ≤ total < 2^64` such that the last
share is not negative (`ceil(total/size) * (size-1) ≤ total`), the shares of lines
113-115, computed in unsigned 64-bit arithmetic and added as natural numbers, give
`total` exactly. -/
theorem shares_sum_to_total (n t : Nat) (hn : 1 ≤ n) (hnt : n ≤ t) (ht : t < 2 ^ 64)
    (hle : (t + n - 1) / n * (n - 1) ≤ t) :
    (totalModeShares n t).sum = t := by
  apply totalModeShares_sum_of_le n t hn ht
  rcases Nat.lt_or_ge (t + n - 1) (2 ^ 64) with h | hov
  · rw [baseShare_eq_ceil n t hn h]
    exact hle
  · exact baseShare_mul_pred_le_of_overflow n t hn hnt ht hov

theorem shares_sum_to_total_witness :
    totalModeShares 3 10 = [4, 4, 2] ∧ (totalModeShares 3 10).sum = 10 :=
  ⟨by decide, shares_sum_to_total 3 10 (by decide) (by decide) (by decide) (by decide)⟩

/-- C2, as stated, fails: with `total = 10` on `size = 3` processes the shares are
4, 4, 2, and the shares of rank 0 and rank 2 differ by 2.  Where the last share would be
negative (`total = 5`, `size = 4`) or `total + size - 1` overflows (`total = 2^64 - 1`,
`size = 2`), the shares differ by more than `size - 1` as well. -/
theorem shares_differ_by_two_at_total_10_size_3 :
    (1 ≤ 3 ∧ 3 ≤ 10 ∧ totalModeShares 3 10 = [4, 4, 2]
        ∧ ¬ (totalModeShare 0 3 10 ≤ totalModeShare 2 3 10 + 1))
      ∧ (4 ≤ 5 ∧ ¬ (totalModeShare 3 4 5 ≤ totalModeShare 0 4 5 + (4 - 1)))
      ∧ (2 ≤ 2 ^ 64 - 1 ∧ totalModeShares 2 (2 ^ 64 - 1) = [0, 2 ^ 64 - 1]) := by
  decide

/-- C2 (amended): for `size ≥ 1` processes and a `total` whose last share is not
negative (`ceil(total/size) * (size-1) ≤ total`, with `total + size - 1 < 2^64`), every
process but the last gets `ceil(total/size)`, and no two shares differ by more than
`size - 1`. -/
theorem shares_differ_by_at_most_size_pred (n t r r' : Nat) (hn : 1 ≤ n)
    (h : t + n - 1 < 2 ^ 64) (hle : (t + n - 1) / n * (n - 1) ≤ t) :
    (r + 1 < n → totalModeShare r n t = (t + n - 1) / n)
      ∧ totalModeShare r n t ≤ totalModeShare r' n t + (n - 1) := by
  have hb := lastShare_bounds n t hn h hle
  constructor
  · intro hlt
    have hne : r ≠ n - 1 := by omega
    simp [totalModeShare, hne, baseShare_eq_ceil n t hn h]
  · unfold totalModeShare
    split <;> split <;> omega

theorem shares_differ_by_at_most_size_pred_witness :
    totalModeShare 0 3 10 = (10 + 3 - 1) / 3
      ∧ totalModeShare 0 3 10 ≤ totalModeShare 2 3 10 + (3 - 1) :=
  ⟨(shares_differ_by_at_most_size_pred 3 10 0 2 (by decide) (by decide)
      (by decide)).1 (by decide),
    (shares_differ_by_at_most_size_pred 3 10 0 2 (by decide) (by decide) (by decide)).2⟩

/-- C10: for `n ≥ 1` processes and a total `t` with `t ≥ (n-1)^2` and
`t + n - 1 < 2^64`, line 113 computes `ceil(t/n)`, the product of line 115 does not
exceed `t` (neither the multiplication nor the subtraction wraps), the last share is
`t - ceil(t/n) * (n-1)`, it is at most `ceil(t/n)` and at most the share of every
process. -/
theorem last_share_does_not_wrap (n t : Nat) (hn : 1 ≤ n) (hsq : (n - 1) ^ 2 ≤ t)
    (h : t + n - 1 < 2 ^ 64) :
    (t ≤ baseShare n t * n ∧ baseShare n t * n < t + n)
      ∧ baseShare n t * (n - 1) ≤ t
      ∧ umul (baseShare n t) (n - 1) = baseShare n t * (n - 1)
      ∧ lastShare n t = t - baseShare n t * (n - 1)
      ∧ lastShare n t ≤ baseShare n t
      ∧ ∀ r, r < n → lastShare n t ≤ totalModeShare r n t := by
  have hle := ceil_mul_pred_le n t hn hsq
  have hb := lastShare_bounds n t hn h hle
  have hlast := lastShare_eq_sub n t hn h hle
  have hbase := baseShare_eq_ceil n t hn h
  refine ⟨baseShare_is_ceil n t hn h, ?_, ?_, ?_, hb.1, ?_⟩
  · rw [hbase]; exact hle
  · rw [hbase]; unfold umul
    apply Nat.mod_eq_of_lt
    omega
  · rw [hbase]; exact hlast
  · intro r _
    unfold totalModeShare
    split
    · exact le_rfl
    · exact hb.1

theorem last_share_does_not_wrap_witness :
    baseShare 3 10 * (3 - 1) ≤ 10 ∧ lastShare 3 10 = 10 - baseShare 3 10 * (3 - 1)
      ∧ lastShare 3 10 ≤ baseShare 3 10 :=
  have w := last_share_does_not_wrap 3 10 (by decide) (by decide) (by decide)
  ⟨w.2.1, w.2.2.2.1, w.2.2.2.2.1⟩

/-! ## Theorems: the shape of a run -/

theorem selectBackend_backends (i : Fin 5) :
    ∃ be, selectBackend (backends i) = some be := by
  fin_cases i <;> exact ⟨_, rfl⟩

theorem iterate_trace (b : Build) (watch : Nat → ℚ) (elements total n : Nat)
    (s : LoopState) :
    (iterate b watch elements total n s).trace
      = s.trace ++ (List.range n).flatMap (iterationCalls b watch total) := by
  induction n with
  | zero => simp [iterate]
  | succ k ih =>
    unfold iterate at ih ⊢
    rw [List.range_succ, List.foldl_append, List.flatMap_append]
    simp [iteration, ih]

theorem iterate_totalTime (b : Build) (watch : Nat → ℚ) (elements total n : Nat)
    (s : LoopState) :
    (iterate b watch elements total n s).totalTime = s.totalTime + elapsedSum watch n := by
  unfold elapsedSum
  induction n with
  | zero => simp [iterate]
  | succ k ih =>
    unfold iterate at ih ⊢
    rw [List.range_succ, List.foldl_append, List.map_append, List.sum_append]
    simp [iteration, ih, add_assoc]

/-- A run whose sizing step yields `elements` and `total`: its calls, in order. -/
theorem main_of_sizes (b : Build) (env : Env) (args : Args) (be : Backend)
    (calls : List Event) (elements total : Nat)
    (hp : args.parse = ParseResult.success)
    (hb : selectBackend (backends args.backend) = some be)
    (hs : resolveSizes b env.rank env.size args.elements args.total
      = (calls, some (elements, total))) :
    main b env args =
      ⟨[Event.mpiInit, Event.setBackend be, Event.setFilename args.file] ++ calls
          ++ [Event.alloc (alignedElements b elements), Event.init (alignedElements b elements)]
          ++ (List.range args.iterations).flatMap
              (iterationCalls b env.watch (alignedTotal b total))
          ++ [Event.logAverage
                (averageTime (elapsedSum env.watch args.iterations) args.iterations)
                (averageBandwidth b (alignedTotal b total) args.iterations
                  (elapsedSum env.watch args.iterations)),
              Event.close, Event.mpiFinalize],
        Outcome.exit 0⟩ := by
  unfold main
  simp only [hp, hb, hs, iterate_trace, iterate_totalTime, zero_add]

/-- A run with neither count given: its calls, in order. -/
theorem main_of_no_sizes (b : Build) (env : Env) (args : Args) (be : Backend)
    (hp : args.parse = ParseResult.success)
    (hb : selectBackend (backends args.backend) = some be)
    (he : args.elements = 0) (ht : args.total = 0) :
    main b env args =
      ⟨[Event.mpiInit, Event.setBackend be, Event.setFilename args.file,
          Event.logError ErrorMessage.sizesRequired],
        Outcome.fatal ErrorMessage.sizesRequired⟩ := by
  unfold main
  simp [hp, hb, he, ht, resolveSizes, logError]

theorem resolveSizes_total_mode (b : Build) (rank size total : Nat) (ht : 0 < total) :
    resolveSizes b rank size 0 total
      = ([], some (totalModeShare rank size total, total)) := by
  simp [resolveSizes, ht]

/-- With a count given, the sizing step yields sizes, and its only calls are the
warning and the reduction. -/
theorem resolveSizes_some (b : Build) (rank size elements total : Nat)
    (h : 0 < elements ∨ 0 < total) :
    ∃ calls e t, resolveSizes b rank size elements total = (calls, some (e, t))
      ∧ ∀ c ∈ calls, c = Event.logWarning ∨ c = Event.mpiReduce elements := by
  unfold resolveSizes
  by_cases he : 0 < elements
  · by_cases hm : b.useMpi = true
    · by_cases ht : 0 < total <;> simp [he, hm, ht]
    · by_cases ht : 0 < total <;> simp [he, hm, ht]
  · have ht : 0 < total := by omega
    simp [he, ht]

theorem filter_flatMap {α β : Type} (p : β → Bool) (f : α → List β) (l : List α) :
    (l.flatMap f).filter p = l.flatMap (fun x => (f x).filter p) := by
  induction l with
  | nil => rfl
  | cons x xs ih => simp [List.flatMap_cons, List.filter_append, ih]

theorem iterationCalls_sessionCalls (b : Build) (watch : Nat → ℚ) (total i : Nat) :
    (iterationCalls b watch total i).filter Event.isSessionCall = [Event.write i 0 0] := by
  cases hm : b.useMpi <;>
    simp [iterationCalls, barrierCall, hm, List.filter, Event.isSessionCall]

theorem iterationCalls_timedCalls (b : Build) (watch : Nat → ℚ) (total i : Nat) :
    (iterationCalls b watch total i).filter Event.isTimedCall = timedCalls b i := by
  cases hm : b.useMpi <;>
    simp [iterationCalls, timedCalls, barrierCall, hm, List.filter, Event.isTimedCall]

theorem filter_eq_nil_of_sizing_calls (p : Event → Bool) (elements : Nat)
    (calls : List Event) (hw : p Event.logWarning = false)
    (hr : p (Event.mpiReduce elements) = false)
    (h : ∀ c ∈ calls, c = Event.logWarning ∨ c = Event.mpiReduce elements) :
    calls.filter p = [] := by
  rw [List.filter_eq_nil_iff]
  intro c hc
  rcases h c hc with rfl | rfl <;> simp [hw, hr]

/-! ## Theorems: the sizing step without a valid share or count (C3, C4) -/

/-- C4: when neither count is given (both resolve to 0) the run ends in the `logError()`
of line 117: its calls are `mpi.init`, `setBackend`, `setFilename` and `logError`, so no
allocation, no `init`, no `write` and no bandwidth report is reached. -/
theorem no_sizes_is_fatal (b : Build) (env : Env) (args : Args)
    (hp : args.parse = ParseResult.success) (he : args.elements = 0)
    (ht : args.total = 0) :
    (main b env args).outcome = Outcome.fatal ErrorMessage.sizesRequired
      ∧ (∃ be, (main b env args).trace =
          [Event.mpiInit, Event.setBackend be, Event.setFilename args.file,
            Event.logError ErrorMessage.sizesRequired])
      ∧ ∀ e ∈ (main b env args).trace, e.isAfterSizing = false := by
  obtain ⟨be, hb⟩ := selectBackend_backends args.backend
  rw [main_of_no_sizes b env args be hp hb he ht]
  refine ⟨rfl, ⟨be, rfl⟩, ?_⟩
  intro e h
  simp only [List.mem_cons, List.mem_singleton, List.not_mem_nil, or_false] at h
  rcases h with rfl | rfl | rfl | rfl <;> rfl

theorem no_sizes_is_fatal_witness :
    (main ⟨true, 1, 8⟩ ⟨0, 1, fun _ => 1⟩
        ⟨ParseResult.success, 0, "checkpoint", 0, 0, 3⟩).outcome
      = Outcome.fatal ErrorMessage.sizesRequired :=
  (no_sizes_is_fatal ⟨true, 1, 8⟩ ⟨0, 1, fun _ => 1⟩
    ⟨ParseResult.success, 0, "checkpoint", 0, 0, 3⟩ rfl rfl rfl).1

/-- C3 (code defect): with `total = 5` on 4 processes, where
`ceil(5/4) * (4-1) = 6 > 5`, the sizing step of the last process (rank 3) raises no
error and yields the share `2^64 - 1`, with which the allocation of line 125 is
reached; rank 0 of the same run allocates its buffer, initialises the session and
writes. -/
theorem negative_last_share_is_not_rejected :
    (5 + 4 - 1) / 4 * (4 - 1) > 5
      ∧ resolveSizes ⟨true, 1, 8⟩ 3 4 0 5 = ([], some (2 ^ 64 - 1, 5))
      ∧ Event.alloc (2 ^ 64 - 1) ∈
          (main ⟨true, 1, 8⟩ ⟨3, 4, fun _ => 1⟩
            ⟨ParseResult.success, 0, "checkpoint", 0, 5, 1⟩).trace
      ∧ Event.alloc 2 ∈
          (main ⟨true, 1, 8⟩ ⟨0, 4, fun _ => 1⟩
            ⟨ParseResult.success, 0, "checkpoint", 0, 5, 1⟩).trace
      ∧ Event.init 2 ∈
          (main ⟨true, 1, 8⟩ ⟨0, 4, fun _ => 1⟩
            ⟨ParseResult.success, 0, "checkpoint", 0, 5, 1⟩).trace
      ∧ Event.write 0 0 0 ∈
          (main ⟨true, 1, 8⟩ ⟨0, 4, fun _ => 1⟩
            ⟨ParseResult.success, 0, "checkpoint", 0, 5, 1⟩).trace := by
  decide

/-- In total mode (no per-process count, `total > 0`) the sizing step checks nothing: on
every process it raises no error, yields the share of lines 113-115, and control
reaches the allocation of line 125 with that share times `NUMBER_OF_ALIGNED_DOFS`. -/
theorem total_mode_is_never_rejected (b : Build) (env : Env) (args : Args)
    (hp : args.parse = ParseResult.success) (he : args.elements = 0)
    (ht : 0 < args.total) :
    resolveSizes b env.rank env.size args.elements args.total
        = ([], some (totalModeShare env.rank env.size args.total, args.total))
      ∧ (∀ m, Event.logError m ∉ (main b env args).trace)
      ∧ Event.alloc (alignedElements b (totalModeShare env.rank env.size args.total))
          ∈ (main b env args).trace := by
  obtain ⟨be, hb⟩ := selectBackend_backends args.backend
  have hs : resolveSizes b env.rank env.size args.elements args.total
      = ([], some (totalModeShare env.rank env.size args.total, args.total)) := by
    rw [he]; exact resolveSizes_total_mode b env.rank env.size args.total ht
  rw [main_of_sizes b env args be _ _ _ hp hb hs]
  refine ⟨hs, ?_, ?_⟩
  · intro m
    cases hm : b.useMpi <;> simp [iterationCalls, barrierCall, hm]
  · simp

/-! ## Theorems: the reduction of the per-rank mode -/

theorem foldl_uadd_replicate (n e acc : Nat) (hacc : acc < 2 ^ 64) :
    (List.replicate n e).foldl uadd acc = (acc + n * e) % 2 ^ 64 := by
  induction n generalizing acc with
  | zero =>
    rw [List.replicate_zero, List.foldl_nil, Nat.zero_mul, Nat.add_zero,
      Nat.mod_eq_of_lt hacc]
  | succ k ih =>
    rw [List.replicate_succ, List.foldl_cons, ih (uadd acc e) (Nat.mod_lt _ (by decide))]
    unfold uadd
    rw [Nat.mod_add_mod]
    congr 1; ring

/-- The reduction of `n` equal contributions leaves their sum, as an `unsigned long`,
on the root. -/
theorem mpiReduceSum_replicate (n e : Nat) :
    mpiReduceSum (List.replicate n e) = (n * e) % 2 ^ 64 := by
  unfold mpiReduceSum
  rw [foldl_uadd_replicate n e 0 (by decide), Nat.zero_add]

/-! ## Theorems: the fill loop (C6) -/

theorem fillValue_eq_mod (i elements j : Nat) :
    fillValue i elements j = (i * elements + j) % 2 ^ 64 := by
  unfold fillValue uadd umul
  rw [Nat.mod_add_mod]

theorem foldl_set_getElem? (f : Nat → Nat) (k : Nat) (dofs : List Nat) (j : Nat) :
    ((List.range k).foldl (fun d x => d.set x (f x)) dofs)[j]?
      = if j < k ∧ j < dofs.length then some (f j) else dofs[j]? := by
  induction k with
  | zero => simp
  | succ k ih =>
    have hlen : ∀ m, ((List.range m).foldl (fun d x => d.set x (f x)) dofs).length
        = dofs.length := by
      intro m
      induction m with
      | zero => simp
      | succ m ihm => rw [List.range_succ, List.foldl_append]; simpa using ihm
    rw [List.range_succ, List.foldl_append, List.foldl_cons, List.foldl_nil,
      List.getElem?_set, ih, hlen]
    by_cases hjk : k = j
    · subst hjk
      by_cases hl : k < dofs.length
      · simp [hl]
      · have hnone : dofs[k]? = none := List.getElem?_eq_none (by omega)
        simp [hl, hnone]
    · by_cases hl : j < dofs.length
      · by_cases hlt : j < k
        · have : j < k + 1 := by omega
          simp [hjk, hl, hlt, this]
        · have : ¬ j < k + 1 := by omega
          simp [hjk, hlt, this]
      · simp [hjk, hl]

/-- After the fill loop of iteration `i` on a buffer of length `elements`, the buffer
is the list of the values `fillValue i elements j`, whatever it held before. -/
theorem fillDofs_eq_map (i elements : Nat) (dofs : List Nat)
    (hlen : dofs.length = elements) :
    fillDofs i elements dofs = (List.range elements).map (fillValue i elements) := by
  apply List.ext_getElem?
  intro j
  unfold fillDofs
  rw [foldl_set_getElem?, hlen]
  by_cases hj : j < elements
  · simp [hj, List.getElem?_range hj]
  · have h1 : dofs[j]? = none := List.getElem?_eq_none (by omega)
    have h2 : ((List.range elements).map (fillValue i elements))[j]? = none :=
      List.getElem?_eq_none (by simp; omega)
    simp [hj, h1, h2]

/-- C6, as stated, fails: in iteration `i = 2^31` (an `unsigned int`) on a buffer of
`L = 2^33` values, index 0 holds `0` after the fill loop, because `i * elements` wraps
in `unsigned long`; the claim asks for `i*L + 0 = 2^64`. -/
theorem fill_value_wraps_at_2_pow_64 :
    2 ^ 31 < 2 ^ 32 ∧ 0 < 2 ^ 33
      ∧ (fillDofs (2 ^ 31) (2 ^ 33) (List.replicate (2 ^ 33) 0))[0]? = some 0
      ∧ 2 ^ 31 * 2 ^ 33 + 0 ≠ 0 := by
  refine ⟨by decide, by decide, ?_, by decide⟩
  rw [fillDofs_eq_map _ _ _ (List.length_replicate _ _), List.getElem?_map,
    List.getElem?_range (by decide)]
  decide

/-- C6 (amended): after the fill loop of iteration `i` on a buffer of length `L`, every
index `j < L` holds `(i*L + j) mod 2^64`, the `unsigned long` the loop computes before
the conversion to `real`, which is `i*L + j` whenever `i*L + j < 2^64`; the contents
depend on `i`, `L` and `j` only (not on what the buffer held before), and filling twice
for the same `i` leaves the same contents. -/
theorem fill_is_reproducible (i L : Nat) (dofs : List Nat) (hlen : dofs.length = L) :
    (fillDofs i L dofs).length = L
      ∧ (∀ j, j < L → (fillDofs i L dofs)[j]? = some ((i * L + j) % 2 ^ 64))
      ∧ (∀ j, j < L → i * L + j < 2 ^ 64 → (fillDofs i L dofs)[j]? = some (i * L + j))
      ∧ (∀ dofs' : List Nat, dofs'.length = L → fillDofs i L dofs' = fillDofs i L dofs)
      ∧ fillDofs i L (fillDofs i L dofs) = fillDofs i L dofs := by
  have hmap := fillDofs_eq_map i L dofs hlen
  have hl : (fillDofs i L dofs).length = L := by rw [hmap]; simp
  have hget : ∀ j, j < L → (fillDofs i L dofs)[j]? = some ((i * L + j) % 2 ^ 64) := by
    intro j hj
    rw [hmap, List.getElem?_map, List.getElem?_range hj, Option.map_some',
      fillValue_eq_mod]
  refine ⟨hl, hget, ?_, ?_, ?_⟩
  · intro j hj hlt
    rw [hget j hj, Nat.mod_eq_of_lt hlt]
  · intro dofs' hlen'
    rw [hmap, fillDofs_eq_map i L dofs' hlen']
  · rw [fillDofs_eq_map i L _ hl, hmap]

theorem fill_is_reproducible_witness :
    (fillDofs 2 3 [0, 0, 0]).length = 3
      ∧ (fillDofs 2 3 [0, 0, 0])[1]? = some ((2 * 3 + 1) % 2 ^ 64)
      ∧ fillDofs 2 3 (fillDofs 2 3 [0, 0, 0]) = fillDofs 2 3 [0, 0, 0] :=
  have w := fill_is_reproducible 2 3 [0, 0, 0] (by decide)
  ⟨w.1, w.2.1 1 (by decide), w.2.2.2.2⟩

/-! ## Theorems: session lifecycle and write order (C7) -/

theorem flatMap_singleton_eq_map {α β : Type} (f : α → β) (l : List α) :
    l.flatMap (fun x => [f x]) = l.map f := by
  induction l with
  | nil => rfl
  | cons x xs ih => simp [List.flatMap_cons, ih]

/-- C7, as stated, fails: in a build without `USE_MPI`, a single process with
`elements = 100` and 3 iterations writes 0, 1, 2 in order, but no write is preceded or
followed by a barrier: the run issues no barrier at all.  In a build with `USE_MPI`
the call right before `write(0, 0, 0)` is `watch.start()`, not the barrier. -/
theorem write_is_not_between_barriers :
    (main ⟨false, 1, 8⟩ ⟨0, 1, fun _ => 1⟩
        ⟨ParseResult.success, 0, "checkpoint", 100, 0, 3⟩).trace.filter Event.isTimedCall
      = [Event.watchStart, Event.write 0 0 0, Event.watchStop,
          Event.watchStart, Event.write 1 0 0, Event.watchStop,
          Event.watchStart, Event.write 2 0 0, Event.watchStop]
      ∧ Event.barrier ∉
          (main ⟨false, 1, 8⟩ ⟨0, 1, fun _ => 1⟩
            ⟨ParseResult.success, 0, "checkpoint", 100, 0, 3⟩).trace
      ∧ (main ⟨true, 1, 8⟩ ⟨0, 1, fun _ => 1⟩
          ⟨ParseResult.success, 0, "checkpoint", 100, 0, 1⟩).trace.filter
            Event.isTimedCall
        = [Event.barrier, Event.watchStart, Event.write 0 0 0, Event.barrier,
            Event.watchStop] := by
  decide

/-- C7 (amended): a run that passes configuration (arguments parsed, a count given)
with `n` iterations returns 0, and its calls on the checkpoint manager are, in order,
`setBackend`, `setFilename`, one `init`, `write(i, 0, 0)` for `i = 0, ..., n-1`, one
`close`.  The timed sections are, for `i = 0, ..., n-1` in order: with `USE_MPI` a
barrier, `watch.start()`, `write(i, 0, 0)`, a barrier, `watch.stop()`; without
`USE_MPI` the same without the two barriers. -/
theorem session_calls_in_order (b : Build) (env : Env) (args : Args)
    (hp : args.parse = ParseResult.success)
    (hs : 0 < args.elements ∨ 0 < args.total) :
    ∃ be L,
      (main b env args).outcome = Outcome.exit 0
        ∧ (main b env args).trace.filter Event.isSessionCall
          = [Event.setBackend be, Event.setFilename args.file, Event.init L]
              ++ (List.range args.iterations).map (fun i => Event.write i 0 0)
              ++ [Event.close]
        ∧ (main b env args).trace.filter Event.isTimedCall
          = (List.range args.iterations).flatMap
              (fun i => (if b.useMpi then [Event.barrier] else [])
                ++ [Event.watchStart, Event.write i 0 0]
                ++ (if b.useMpi then [Event.barrier] else [])
                ++ [Event.watchStop]) := by
  obtain ⟨be, hb⟩ := selectBackend_backends args.backend
  obtain ⟨calls, e, t, hsz, hcalls⟩ :=
    resolveSizes_some b env.rank env.size args.elements args.total hs
  refine ⟨be, alignedElements b e, ?_⟩
  rw [main_of_sizes b env args be calls e t hp hb hsz]
  have h1 : calls.filter Event.isSessionCall = [] :=
    filter_eq_nil_of_sizing_calls _ _ calls rfl rfl hcalls
  have h2 : calls.filter Event.isTimedCall = [] :=
    filter_eq_nil_of_sizing_calls _ _ calls rfl rfl hcalls
  refine ⟨rfl, ?_, ?_⟩
  · simp only [List.filter_append, filter_flatMap, iterationCalls_sessionCalls, h1]
    simp [List.filter, Event.isSessionCall, flatMap_singleton_eq_map]
  · simp only [List.filter_append, filter_flatMap, iterationCalls_timedCalls, h2]
    simp [List.filter, Event.isTimedCall, timedCalls, barrierCall]

theorem session_calls_in_order_witness :
    (main ⟨true, 1, 8⟩ ⟨0, 1, fun _ => 1⟩
        ⟨ParseResult.success, 0, "checkpoint", 100, 0, 3⟩).outcome = Outcome.exit 0
      ∧ (main ⟨true, 1, 8⟩ ⟨0, 1, fun _ => 1⟩
          ⟨ParseResult.success, 0, "checkpoint", 100, 0, 3⟩).trace.filter
            Event.isTimedCall
        = (List.range 3).flatMap
            (fun i => [Event.barrier] ++ [Event.watchStart, Event.write i 0 0]
              ++ [Event.barrier] ++ [Event.watchStop]) :=
  have ⟨_, _, h1, _, h3⟩ := session_calls_in_order ⟨true, 1, 8⟩ ⟨0, 1, fun _ => 1⟩
    ⟨ParseResult.success, 0, "checkpoint", 100, 0, 3⟩ rfl (Or.inl (by decide))
  ⟨h1, h3⟩

/-! ## Theorems: the derived total and the bandwidth reports (C5, C8, C9) -/

theorem logTime_mem_iterationCalls (b : Build) (watch : Nat → ℚ) (total i : Nat)
    (t bw : ℚ) :
    Event.logTime t bw ∈ iterationCalls b watch total i
      ↔ t = watch i ∧ bw = instBandwidth b total (watch i) := by
  cases hm : b.useMpi <;> simp [iterationCalls, barrierCall, hm]

theorem logAverage_not_mem_iterationCalls (b : Build) (watch : Nat → ℚ) (total i : Nat)
    (x y : ℚ) : Event.logAverage x y ∉ iterationCalls b watch total i := by
  cases hm : b.useMpi <;> simp [iterationCalls, barrierCall, hm]

/-- The warning and the reduction are the only calls of the sizing step. -/
theorem resolveSizes_calls (b : Build) (rank size elements total : Nat) :
    ∀ c ∈ (resolveSizes b rank size elements total).1,
      c = Event.logWarning ∨ c = Event.mpiReduce elements := by
  unfold resolveSizes
  by_cases he : 0 < elements
  · by_cases hm : b.useMpi = true
    · by_cases ht : 0 < total <;> simp [he, hm, ht]
    · by_cases ht : 0 < total <;> simp [he, hm, ht]
  · by_cases ht : 0 < total <;> simp [he, ht]

/-- The per-iteration reports of a run: one for each iteration, computed from the
elapsed time of that iteration and the scaled `total`. -/
theorem logTime_mem_main (b : Build) (env : Env) (args : Args)
    (calls : List Event) (elements total : Nat)
    (hp : args.parse = ParseResult.success)
    (hs : resolveSizes b env.rank env.size args.elements args.total
      = (calls, some (elements, total))) (t bw : ℚ) :
    Event.logTime t bw ∈ (main b env args).trace
      ↔ ∃ i, i < args.iterations ∧ t = env.watch i
          ∧ bw = instBandwidth b (alignedTotal b total) (env.watch i) := by
  obtain ⟨be, hb⟩ := selectBackend_backends args.backend
  have hc := resolveSizes_calls b env.rank env.size args.elements args.total
  rw [hs] at hc
  have hnot : Event.logTime t bw ∉ calls := by
    intro hmem
    rcases hc _ hmem with h | h <;> cases h
  rw [main_of_sizes b env args be calls elements total hp hb hs]
  simp [hnot, List.mem_flatMap, logTime_mem_iterationCalls]

/-- The summary report of a run. -/
theorem logAverage_mem_main (b : Build) (env : Env) (args : Args)
    (calls : List Event) (elements total : Nat)
    (hp : args.parse = ParseResult.success)
    (hs : resolveSizes b env.rank env.size args.elements args.total
      = (calls, some (elements, total))) (x y : ℚ) :
    Event.logAverage x y ∈ (main b env args).trace
      ↔ x = averageTime (elapsedSum env.watch args.iterations) args.iterations
          ∧ y = averageBandwidth b (alignedTotal b total) args.iterations
              (elapsedSum env.watch args.iterations) := by
  obtain ⟨be, hb⟩ := selectBackend_backends args.backend
  have hc := resolveSizes_calls b env.rank env.size args.elements args.total
  rw [hs] at hc
  have hnot : Event.logAverage x y ∉ calls := by
    intro hmem
    rcases hc _ hmem with h | h <;> cases h
  rw [main_of_sizes b env args be calls elements total hp hb hs]
  simp [hnot, List.mem_flatMap, logAverage_not_mem_iterationCalls]

theorem elapsedSum_pos (watch : Nat → ℚ) (n : Nat) (hn : 1 ≤ n)
    (hpos : ∀ i, i < n → 0 < watch i) : 0 < elapsedSum watch n := by
  unfold elapsedSum
  induction n with
  | zero => omega
  | succ k ih =>
    rw [List.range_succ, List.map_append, List.sum_append]
    have hk : 0 < watch k := hpos k (by omega)
    rcases Nat.eq_zero_or_pos k with h0 | hkpos
    · subst h0; simpa using hk
    · have := ih hkpos (fun i hi => hpos i (by omega))
      simp only [List.map_cons, List.map_nil, List.sum_cons, List.sum_nil, add_zero]
      linarith

/-- C5, as stated, fails.  In a build without `USE_MPI` the reduction of line 110 is
compiled out and nothing else assigns `total`: with `elements = 5` on the single
process, `total` stays 0 when no total is given, and stays 7 when 7 is given (after the
warning that the total is ignored); the claim asks for 5.  In a build with `USE_MPI`,
2 processes with `elements = 2^63` leave the sum 0 on rank 0, not `2 * 2^63`. -/
theorem per_rank_total_is_not_the_sum :
    resolveSizes ⟨false, 1, 8⟩ 0 1 5 0 = ([], some (5, 0))
      ∧ resolveSizes ⟨false, 1, 8⟩ 0 1 5 7 = ([Event.logWarning], some (5, 7))
      ∧ (resolveSizes ⟨true, 1, 8⟩ 0 2 (2 ^ 63) 0).2 = some (2 ^ 63, 0)
      ∧ 2 * 2 ^ 63 ≠ 0 := by
  decide

/-- C5 (amended): per-rank mode in a build with `USE_MPI`: for every number of
processes and every `elements > 0` used by all of them, the total that rank 0 holds
after the sizing step, and uses in the bandwidth of every iteration, is the sum of the
per-process counts as an `unsigned long`, `(size * elements) mod 2^64`, whatever total
was given on the command line; it is `size * elements` whenever that is below `2^64`. -/
theorem per_rank_total_with_mpi (b : Build) (env : Env) (args : Args)
    (hm : b.useMpi = true) (hr : env.rank = 0) (he : 0 < args.elements) :
    (resolveSizes b env.rank env.size args.elements args.total).2
        = some (args.elements, (env.size * args.elements) % 2 ^ 64)
      ∧ (env.size * args.elements < 2 ^ 64 →
          (resolveSizes b env.rank env.size args.elements args.total).2
            = some (args.elements, env.size * args.elements))
      ∧ (args.parse = ParseResult.success →
          ∀ t bw, Event.logTime t bw ∈ (main b env args).trace →
            bw = instBandwidth b
              (alignedTotal b ((env.size * args.elements) % 2 ^ 64)) t) := by
  have hs : resolveSizes b env.rank env.size args.elements args.total
      = ((if 0 < args.total then [Event.logWarning] else [])
          ++ [Event.mpiReduce args.elements],
        some (args.elements, (env.size * args.elements) % 2 ^ 64)) := by
    simp [resolveSizes, he, hm, hr, mpiReduceSum_replicate]
  refine ⟨by rw [hs], ?_, ?_⟩
  · intro hlt
    rw [hs, Nat.mod_eq_of_lt hlt]
  · intro hp t bw h
    obtain ⟨i, _, ht, hbw⟩ := (logTime_mem_main b env args _ _ _ hp hs t bw).mp h
    rw [hbw, ht]

theorem per_rank_total_with_mpi_witness :
    (resolveSizes ⟨true, 1, 8⟩ 0 4 5 0).2 = some (5, 4 * 5) :=
  (per_rank_total_with_mpi ⟨true, 1, 8⟩ ⟨0, 4, fun _ => 1⟩
    ⟨ParseResult.success, 0, "checkpoint", 5, 0, 3⟩ rfl rfl (by decide)).2.1 (by decide)

/-- C8, as stated, fails: with `total = 2^61` elements on `2^30` processes, one data
unit per element and `sizeof(real) = 8`, the byte count `total*sizeof(real) = 2^64`
wraps to 0 in `unsigned long`; for an elapsed time of 1 the report of rank 0 is a
bandwidth of 0 and not `2^61 * 8 / 1 / (1024*1024)`. -/
theorem bandwidth_bytes_wrap_at_2_pow_64 :
    (∀ bw, Event.logTime 1 bw ∈
        (main ⟨true, 1, 8⟩ ⟨0, 2 ^ 30, fun _ => 1⟩
          ⟨ParseResult.success, 0, "checkpoint", 0, 2 ^ 61, 1⟩).trace ↔ bw = 0)
      ∧ alignedTotal ⟨true, 1, 8⟩ (2 ^ 61) = 2 ^ 61
      ∧ ((2 ^ 61 : ℚ) * 8) / 1 / (1024 * 1024) ≠ 0 := by
  refine ⟨?_, by decide, by norm_num⟩
  intro bw
  rw [logTime_mem_main ⟨true, 1, 8⟩ ⟨0, 2 ^ 30, fun _ => 1⟩
    ⟨ParseResult.success, 0, "checkpoint", 0, 2 ^ 61, 1⟩ [] _ (2 ^ 61) rfl
    (resolveSizes_total_mode _ _ _ _ (by decide))]
  have hz : instBandwidth ⟨true, 1, 8⟩ (alignedTotal ⟨true, 1, 8⟩ (2 ^ 61)) 1 = 0 := by
    have h0 : umul (alignedTotal ⟨true, 1, 8⟩ (2 ^ 61))
        (Build.sizeofReal ⟨true, 1, 8⟩) = 0 := by decide
    unfold instBandwidth
    rw [h0]
    simp
  constructor
  · rintro ⟨i, _, _, h⟩
    rw [h]; exact hz
  · intro h
    exact ⟨0, by decide, rfl, by rw [h]; exact hz.symm⟩

/-- C8 (amended): in every iteration the reported bandwidth is
`((alignedTotal * sizeof(real)) mod 2^64) / t / (1024*1024)` in exact rational
arithmetic, where `t` is the elapsed time of the iteration and `alignedTotal` is the
variable `total` after line 122, `(total * NUMBER_OF_ALIGNED_DOFS) mod 2^64`, not the
local buffer length `elements`; in total mode `total` is the global count of the
command line.  Whenever `alignedTotal * sizeof(real) < 2^64` this is
`(alignedTotal * sizeof(real)) / t / (1024*1024)`, and for 1048576 bytes and `t = 1` it
is exactly 1. -/
theorem reported_bandwidth (b : Build) (env : Env) (args : Args)
    (calls : List Event) (elements total : Nat)
    (hp : args.parse = ParseResult.success)
    (hs : resolveSizes b env.rank env.size args.elements args.total
      = (calls, some (elements, total))) :
    (∀ i, i < args.iterations →
        Event.logTime (env.watch i)
          ((((alignedTotal b total * b.sizeofReal) % 2 ^ 64 : Nat) : ℚ)
            / env.watch i / (1024 * 1024)) ∈ (main b env args).trace)
      ∧ (∀ t bw, Event.logTime t bw ∈ (main b env args).trace →
          bw = (((alignedTotal b total * b.sizeofReal) % 2 ^ 64 : Nat) : ℚ)
            / t / (1024 * 1024))
      ∧ alignedTotal b total = (total * b.alignedDofs) % 2 ^ 64
      ∧ (args.elements = 0 → total = args.total)
      ∧ (alignedTotal b total * b.sizeofReal < 2 ^ 64 →
          ∀ t bw, Event.logTime t bw ∈ (main b env args).trace →
            bw = ((alignedTotal b total : ℚ) * (b.sizeofReal : ℚ)) / t / (1024 * 1024))
      ∧ (alignedTotal b total * b.sizeofReal = 1048576 →
          ∀ bw, Event.logTime 1 bw ∈ (main b env args).trace → bw = 1) := by
  have hmem := logTime_mem_main b env args calls elements total hp hs
  have hall : ∀ t bw, Event.logTime t bw ∈ (main b env args).trace →
      bw = (((alignedTotal b total * b.sizeofReal) % 2 ^ 64 : Nat) : ℚ)
        / t / (1024 * 1024) := by
    intro t bw h
    obtain ⟨i, _, ht, hbw⟩ := (hmem t bw).mp h
    rw [hbw, ht]
    rfl
  refine ⟨?_, hall, rfl, ?_, ?_, ?_⟩
  · intro i hi
    exact (hmem _ _).mpr ⟨i, hi, rfl, rfl⟩
  · intro he
    rw [he] at hs
    by_cases ht : 0 < args.total
    · rw [resolveSizes_total_mode b env.rank env.size args.total ht] at hs
      simp only [Prod.mk.injEq, Option.some.injEq] at hs
      exact hs.2.2.symm
    · simp [resolveSizes, ht] at hs
  · intro hlt t bw h
    rw [hall t bw h, Nat.mod_eq_of_lt hlt, Nat.cast_mul]
  · intro heq bw h
    rw [hall 1 bw h, heq]
    norm_num

theorem reported_bandwidth_witness :
    Event.logTime 1 1 ∈
      (main ⟨true, 1, 8⟩ ⟨0, 2, fun _ => 1⟩
        ⟨ParseResult.success, 0, "checkpoint", 0, 131072, 1⟩).trace := by
  have w := (reported_bandwidth ⟨true, 1, 8⟩ ⟨0, 2, fun _ => 1⟩
    ⟨ParseResult.success, 0, "checkpoint", 0, 131072, 1⟩ [] 65536 131072 rfl
    (by decide)).1 0 (by decide)
  have hbytes : (alignedTotal ⟨true, 1, 8⟩ 131072 * Build.sizeofReal ⟨true, 1, 8⟩)
      % 2 ^ 64 = 1048576 := by decide
  rw [hbytes] at w
  norm_num at w
  exact w

/-- C9, as stated, fails: in total mode with `total = 2^60` elements on `2^30` processes,
one data unit per element, `sizeof(real) = 8` and 2 iterations of elapsed time 1 each
(sum 2), the product `total*sizeof(real)*iterations = 2^64` of line 180 wraps to 0 in
`unsigned long`: the summary reports the mean time 1 and the mean bandwidth 0, so mean
bandwidth times mean time is 0 and not `2^60 * 8 / 1048576`. -/
theorem average_bandwidth_product_wraps :
    1 ≤ 2
      ∧ elapsedSum (fun _ => 1) 2 = 2
      ∧ Event.logAverage 1 0 ∈
          (main ⟨true, 1, 8⟩ ⟨0, 2 ^ 30, fun _ => 1⟩
            ⟨ParseResult.success, 0, "checkpoint", 0, 2 ^ 60, 2⟩).trace
      ∧ (∀ x y, Event.logAverage x y ∈
          (main ⟨true, 1, 8⟩ ⟨0, 2 ^ 30, fun _ => 1⟩
            ⟨ParseResult.success, 0, "checkpoint", 0, 2 ^ 60, 2⟩).trace →
          y * x ≠ ((alignedTotal ⟨true, 1, 8⟩ (2 ^ 60) * 8 : Nat) : ℚ) / 1048576) := by
  have hsum : elapsedSum (fun _ => 1) 2 = 2 := by
    simp [elapsedSum, List.range_succ]
    norm_num
  have hmem := logAverage_mem_main ⟨true, 1, 8⟩ ⟨0, 2 ^ 30, fun _ => 1⟩
    ⟨ParseResult.success, 0, "checkpoint", 0, 2 ^ 60, 2⟩ [] _ (2 ^ 60) rfl
    (resolveSizes_total_mode _ _ _ _ (by decide))
  have hP : umul (umul (alignedTotal ⟨true, 1, 8⟩ (2 ^ 60))
      (Build.sizeofReal ⟨true, 1, 8⟩)) 2 = 0 := by decide
  have hbw : averageBandwidth ⟨true, 1, 8⟩ (alignedTotal ⟨true, 1, 8⟩ (2 ^ 60)) 2
      (elapsedSum (fun _ => 1) 2) = 0 := by
    unfold averageBandwidth
    rw [hP]
    simp
  have htime : averageTime (elapsedSum (fun _ => 1) 2) 2 = 1 := by
    unfold averageTime
    rw [hsum]
    norm_num
  have hbytes : alignedTotal ⟨true, 1, 8⟩ (2 ^ 60) * 8 = 2 ^ 63 := by decide
  refine ⟨by decide, hsum, ?_, ?_⟩
  · exact (hmem 1 0).mpr ⟨htime.symm, hbw.symm⟩
  · intro x y h
    obtain ⟨hx, hy⟩ := (hmem x y).mp h
    change x = averageTime (elapsedSum (fun _ => 1) 2) 2 at hx
    change y = averageBandwidth ⟨true, 1, 8⟩ (alignedTotal ⟨true, 1, 8⟩ (2 ^ 60)) 2
      (elapsedSum (fun _ => 1) 2) at hy
    rw [hx, hy, hbw, htime, hbytes]
    norm_num

/-- C9 (amended): for `n ≥ 1` iterations with positive elapsed times of sum `T`, the
summary reports the mean time `T / n` and the mean bandwidth `P / T / (1024*1024)`, where
`P` is the product `alignedTotal * sizeof(real) * n` as `main` computes it in
`unsigned long` (each multiplication modulo `2^64`) and `alignedTotal` is the variable
`total` after line 122, `(total * NUMBER_OF_ALIGNED_DOFS) mod 2^64`.  `T` is positive,
and mean bandwidth times mean time is `P / n / 1048576`; whenever the product does not
wrap (`alignedTotal * sizeof(real) * n < 2^64`) this is
`alignedTotal * sizeof(real) / 1048576`. -/
theorem final_statistics (b : Build) (env : Env) (args : Args)
    (calls : List Event) (elements total : Nat)
    (hp : args.parse = ParseResult.success)
    (hs : resolveSizes b env.rank env.size args.elements args.total
      = (calls, some (elements, total)))
    (hn : 1 ≤ args.iterations) (hpos : ∀ i, i < args.iterations → 0 < env.watch i) :
    (∀ x y, Event.logAverage x y ∈ (main b env args).trace ↔
        x = elapsedSum env.watch args.iterations / (args.iterations : ℚ)
          ∧ y = ((((alignedTotal b total * b.sizeofReal) % 2 ^ 64 * args.iterations)
                  % 2 ^ 64 : Nat) : ℚ)
                / elapsedSum env.watch args.iterations / (1024 * 1024))
      ∧ 0 < elapsedSum env.watch args.iterations
      ∧ (alignedTotal b total * b.sizeofReal * args.iterations < 2 ^ 64 →
          ∀ x y, Event.logAverage x y ∈ (main b env args).trace →
            y * x = ((alignedTotal b total * b.sizeofReal : Nat) : ℚ) / 1048576)
      ∧ alignedTotal b total = (total * b.alignedDofs) % 2 ^ 64
      ∧ (∀ x y, Event.logAverage x y ∈ (main b env args).trace →
          y * x = ((((alignedTotal b total * b.sizeofReal) % 2 ^ 64 * args.iterations)
                  % 2 ^ 64 : Nat) : ℚ) / (args.iterations : ℚ) / 1048576) := by
  have hmem := logAverage_mem_main b env args calls elements total hp hs
  have hT := elapsedSum_pos env.watch args.iterations hn hpos
  have hn' : (0 : ℚ) < (args.iterations : ℚ) := by exact_mod_cast hn
  have hwrapped : ∀ x y, Event.logAverage x y ∈ (main b env args).trace →
      y * x = ((umul (umul (alignedTotal b total) b.sizeofReal) args.iterations : Nat) : ℚ)
        / (args.iterations : ℚ) / 1048576 := by
    intro x y h
    obtain ⟨hx, hy⟩ := (hmem x y).mp h
    rw [hx, hy]
    unfold averageTime averageBandwidth
    field_simp
    ring
  refine ⟨fun x y => hmem x y, hT, ?_, rfl, hwrapped⟩
  intro hlt x y h
  have hle : alignedTotal b total * b.sizeofReal
      ≤ alignedTotal b total * b.sizeofReal * args.iterations :=
    Nat.le_mul_of_pos_right _ hn
  have hP : umul (umul (alignedTotal b total) b.sizeofReal) args.iterations
      = alignedTotal b total * b.sizeofReal * args.iterations := by
    unfold umul
    rw [Nat.mod_eq_of_lt (lt_of_le_of_lt hle hlt), Nat.mod_eq_of_lt hlt]
  rw [hwrapped x y h, hP]
  push_cast
  field_simp

theorem final_statistics_witness :
    0 < elapsedSum (fun _ => 1) 3
      ∧ Event.logAverage (elapsedSum (fun _ => 1) 3 / ((3 : Nat) : ℚ))
          (((((alignedTotal ⟨true, 1, 8⟩ 131072 * 8) % 2 ^ 64 * 3) % 2 ^ 64 : Nat) : ℚ)
            / elapsedSum (fun _ => 1) 3 / (1024 * 1024))
          ∈ (main ⟨true, 1, 8⟩ ⟨0, 2, fun _ => 1⟩
              ⟨ParseResult.success, 0, "checkpoint", 0, 131072, 3⟩).trace
      ∧ (((((alignedTotal ⟨true, 1, 8⟩ 131072 * 8) % 2 ^ 64 * 3) % 2 ^ 64 : Nat) : ℚ)
            / elapsedSum (fun _ => 1) 3 / (1024 * 1024))
          * (elapsedSum (fun _ => 1) 3 / ((3 : Nat) : ℚ))
        = ((alignedTotal ⟨true, 1, 8⟩ 131072 * 8 : Nat) : ℚ) / 1048576 :=
  have w := final_statistics ⟨true, 1, 8⟩ ⟨0, 2, fun _ => 1⟩
    ⟨ParseResult.success, 0, "checkpoint", 0, 131072, 3⟩ [] 65536 131072 rfl
    (by decide) (by decide) (fun _ _ => by norm_num)
  ⟨w.2.1, (w.1 _ _).mpr ⟨rfl, rfl⟩, w.2.2.1 (by decide) _ _ ((w.1 _ _).mpr ⟨rfl, rfl⟩)⟩

end CheckpointBench
